import Mathlib

/-!
Shallow embedding of `reformat.py` (ZebraCHOP): a batch tool that annotates
CRISPR guide TSV reports with exon ordinals and filters to early exons.

Python strings are modelled as `List Char`, TSV rows as `List Str`, the
remote Ensembl service as an oracle `Nat → Str → Option (List Exon)` that
receives the index of the network call (the code performs one outbound
request per `fetch_exon_data` call, so successive calls may in principle
observe different responses), and the output text file as a list of lines.
Fallible steps return explicit error values mirroring Python exceptions.
-/

abbrev Str := List Char

/-- One exon interval as built by `fetch_exon_data` (line 31):
`{'start': exon['start'], 'end': exon['end']}`. -/
structure Exon where
  start : Int
  «end» : Int
deriving DecidableEq, Repr

/-- Whether `exon['start'] <= coordinate <= exon['end']` (line 50). -/
def exonContains (e : Exon) (c : Int) : Bool :=
  decide (e.start ≤ c ∧ c ≤ e.«end»)

/-- The scan loop of `find_exon` (lines 49-53):
`for index, exon in enumerate(exons, start=1): if ... return index`,
falling through to `return None`. -/
def find_exon_loop (exons : List Exon) (c : Int) (index : Nat) : Option Nat :=
  match exons with
  | [] => none
  | e :: rest => if exonContains e c then some index else find_exon_loop rest c (index + 1)

/-- Function `find_exon` (lines 36-53). The network call `fetch_exon_data(gene_name)`
is abstracted as the `fetch` argument; `none` models Python `None` (error
payload from the service). `if not exons: return None` is true both for
`None` and for an empty list. The `chromosome` parameter is accepted but
never used by the body, exactly as in the source. -/
def find_exon (fetch : Str → Option (List Exon)) (chromosome : Str) (coordinate : Int)
    (gene_name : Str) : Option Nat :=
  match fetch gene_name with
  | none => none
  | some exons => if exons = [] then none else find_exon_loop exons coordinate 1

/-- Function `calculate_exon_threshold` (lines 56-68). `exon_count / 2.0` is the exact
rational `n / 2` (Python float division is exact at these magnitudes), so
`int(math.ceil(n / 2.0))` is `⌈n / 2⌉ = (n + 1) / 2` and
`int(math.floor(n / 2.0))` is `⌊n / 2⌋ = n / 2` in natural-number division;
the equalities with the rational ceiling and floor are proved below. -/
def calculate_exon_threshold (exon_count : Nat) : Int :=
  if exon_count ≤ 5 then ((exon_count + 1) / 2 : Nat) else ((exon_count / 2 : Nat))

/-- Python `s.split(':')`: split on every occurrence of the separator;
`''.split(':') = ['']`, `'a:b:c'.split(':') = ['a','b','c']`. -/
def splitColon : Str → List Str
  | [] => [[]]
  | c :: rest =>
    if c = ':' then [] :: splitColon rest
    else
      match splitColon rest with
      | [] => [[c]]
      | s :: ss => (c :: s) :: ss

/-- Helper for `pyReplace`, structurally recursive on a fuel argument so that
it evaluates by kernel reduction; one unit of fuel is consumed per emitted
position, so fuel equal to the input length always suffices (a non-empty
matched pattern consumes at least one input character). -/
def pyReplaceFuel (pat repl : Str) : Nat → Str → Str
  | _, [] => []
  | 0, s => s
  | fuel + 1, c :: rest =>
    if pat ≠ [] ∧ pat.isPrefixOf (c :: rest) then
      repl ++ pyReplaceFuel pat repl fuel ((c :: rest).drop pat.length)
    else
      c :: pyReplaceFuel pat repl fuel rest

/-- Python `s.replace(old, new)`: replace every non-overlapping occurrence,
left to right. Used for `chromosome.replace('chr', '')` (line 119). -/
def pyReplace (pat repl s : Str) : Str :=
  pyReplaceFuel pat repl s.length s

/-- Value of a list of decimal digit characters. -/
def digitsVal (l : Str) : Nat :=
  l.foldl (fun acc c => acc * 10 + (c.toNat - Char.toNat '0')) 0

/-- Python `int(s)` on a string (line 120), `none` modelling `ValueError`:
an optional sign followed by at least one decimal digit parses, anything
else raises. -/
def pyInt (s : Str) : Option Int :=
  match s with
  | [] => none
  | '-' :: rest =>
    if rest ≠ [] ∧ rest.all (·.isDigit) then some (-(digitsVal rest : Int)) else none
  | '+' :: rest =>
    if rest ≠ [] ∧ rest.all (·.isDigit) then some ((digitsVal rest : Int)) else none
  | l => if l.all (·.isDigit) then some ((digitsVal l : Int)) else none

/-- Truncation `row[1][:-3] if len(row[1]) > 3 else row[1]` (line 123): drop the last
three characters when the field is longer than three characters. -/
def truncateLabel (s : Str) : Str :=
  if s.length > 3 then s.take (s.length - 3) else s

/-- The Python exceptions a data row can raise inside the scan loop
(lines 117-120): `row[2]` on a short row raises `IndexError`; unpacking
`chromosome, position = genomic_coordinates.split(':')` raises `ValueError`
unless the split has exactly two parts; `int(position)` raises `ValueError`
on a non-numeric string. -/
inductive RowError
  | indexError
  | splitValueError
  | intValueError
deriving DecidableEq, Repr

/-- The output line written for a kept row (lines 128-132):
`"[{0}]  Efficiency Score: [{1}]  Exon number: {n}"` with the truncated
second cell, the row's last cell, and the exon number. -/
def formatLine (second_cell score : Str) (n : Nat) : Str :=
  "[".toList ++ second_cell ++ "]  Efficiency Score: [".toList ++ score ++
    "]  Exon number: ".toList ++ Nat.toDigits 10 n

/-- Processing of one non-empty data row (lines 116-133), parameterised by
the classification step (line 126), which receives the parsed chromosome
and position. `Except.ok none` means the row parsed but was not kept;
`Except.ok (some line)` means the row was kept and `line` written.
Evaluation order follows the source: `row[2]`, `split(':')` unpack,
`replace`, `int`, `row[1]` truncation, classification, threshold
comparison. -/
def rowStepWith (classifier : Str → Int → Option Nat) (exon_threshold : Int)
    (row : List Str) : Except RowError (Option Str) :=
  match row.get? 2 with
  | none => .error .indexError
  | some genomic_coordinates =>
    match splitColon genomic_coordinates with
    | [chrom, pos] =>
      let chromosome := pyReplace "chr".toList [] chrom
      match pyInt pos with
      | none => .error .intValueError
      | some position =>
        let second_cell := truncateLabel ((row.get? 1).getD [])
        match classifier chromosome position with
        | some exon_number =>
          if (exon_number : Int) ≤ exon_threshold then
            .ok (some (formatLine second_cell ((row.getLast?).getD []) exon_number))
          else
            .ok none
        | none => .ok none
    | _ => .error .splitValueError

/-- One data row as the source has it: the classification of line 126 is
`find_exon(chromosome, position, gene_name)`, which performs its own fetch. -/
def rowStep (fetch : Str → Option (List Exon)) (gene_name : Str) (exon_threshold : Int)
    (row : List Str) : Except RowError (Option Str) :=
  rowStepWith (fun chromosome position => find_exon fetch chromosome position gene_name)
    exon_threshold row

/-- The scan loop over a file's data rows (lines 111-133). Arguments:
the row list still to scan, the kept-row count so far, and the index `k` of
the next network call (each `find_exon` call performs one fetch, so a
parsed row consumes one call index). Returns the lines written, the next
call index, and the exception, if any, that aborted the loop. -/
def processRows (net : Nat → Str → Option (List Exon)) (gene_name : Str)
    (exon_threshold : Int) : List (List Str) → Nat → Nat → List Str × Nat × Option RowError
  | [], _, k => ([], k, none)
  | row :: rest, count, k =>
    if 5 ≤ count then ([], k, none)
    else if row = [] then processRows net gene_name exon_threshold rest count k
    else
      match rowStep (net k) gene_name exon_threshold row with
      | .error e => ([], k, some e)
      | .ok none => processRows net gene_name exon_threshold rest count (k + 1)
      | .ok (some line) =>
        match processRows net gene_name exon_threshold rest (count + 1) (k + 1) with
        | (ls, k2, err) => (line :: ls, k2, err)

/-- The message printed at line 92 when a gene has no exon data; the file
name is the gene name plus the recognised `.tsv` extension. -/
def skipNotice (gene_name : Str) : Str :=
  "No exons found for gene ".toList ++ gene_name ++ ". Skipping file ".toList ++
    gene_name ++ ".tsv.".toList

/-- Observable outcome of a run of
`read_tsv_files_in_directory_and_write_output`: the lines written to the
output file, the skip notices printed, the number of `pbar.update(1)` calls,
and the exception, if any, that reached the top-level handler (line 137). -/
structure RunResult where
  out : List Str
  skips : List Str
  progress : Nat
  err : Option RowError
deriving DecidableEq, Repr

/-- The per-file loop of `read_tsv_files_in_directory_and_write_output`
(lines 81-135). A file is a gene name (the base name of a `.tsv` file,
line 84-87) paired with its already-tab-split rows, header row included
(`next(tsv_reader, None)` skips it, line 104). `net k` is the response to
the `k`-th network call of the run: line 90 performs one fetch per file, and
each scanned row performs one more inside `find_exon`. On an exception the
loop stops: lines already written remain, later files are not touched, and
no further `pbar.update` happens. -/
def processFiles (net : Nat → Str → Option (List Exon)) :
    List (Str × List (List Str)) → Nat → RunResult
  | [], _ => ⟨[], [], 0, none⟩
  | (gene_name, rows) :: rest, k =>
    match net k gene_name with
    | none =>
      let r := processFiles net rest (k + 1)
      ⟨r.out, skipNotice gene_name :: r.skips, r.progress + 1, r.err⟩
    | some exons =>
      if exons = [] then
        let r := processFiles net rest (k + 1)
        ⟨r.out, skipNotice gene_name :: r.skips, r.progress + 1, r.err⟩
      else
        let exon_threshold := calculate_exon_threshold exons.length
        let header : List Str := [gene_name, List.replicate gene_name.length '=']
        match processRows net gene_name exon_threshold rows.tail 0 (k + 1) with
        | (lines, _, some e) => ⟨header ++ lines, [], 0, some e⟩
        | (lines, k2, none) =>
          let r := processFiles net rest k2
          ⟨header ++ lines ++ [[]] ++ r.out, r.skips, r.progress + 1, r.err⟩

/-- Modelled from the spec, §4.2 Exon Classifier:
`classify(exons, coordinate) -> exon_ordinal(1-based) | not_found`, the
1-based position of the first interval with `start <= coordinate <= end`
(`none` when no interval contains the coordinate, in particular on an empty
sequence). Used only to compare the processor against the spec's
description of step 6, which classifies against the step-3 exon list. -/
def classify (exons : List Exon) (coordinate : Int) : Option Nat :=
  find_exon_loop exons coordinate 1

/-- Modelled from the spec, §4.4 step 6: row handling as `rowStep`, except
that the coordinate is classified against the gene-scoped exon list obtained
by the single locator invocation of step 3, with no further fetch. -/
def rowStepSpec (exons : List Exon) (exon_threshold : Int) (row : List Str) :
    Except RowError (Option Str) :=
  rowStepWith (fun _ position => classify exons position) exon_threshold row

/-- Modelled from the spec, §4.4 step 6: the row scan using `rowStepSpec`,
so no per-row fetch and no network-call counter. -/
def processRowsSpec (exons : List Exon) (exon_threshold : Int) :
    List (List Str) → Nat → List Str × Option RowError
  | [], _ => ([], none)
  | row :: rest, count =>
    if 5 ≤ count then ([], none)
    else if row = [] then processRowsSpec exons exon_threshold rest count
    else
      match rowStepSpec exons exon_threshold row with
      | .error e => ([], some e)
      | .ok none => processRowsSpec exons exon_threshold rest count
      | .ok (some line) =>
        match processRowsSpec exons exon_threshold rest (count + 1) with
        | (ls, err) => (line :: ls, err)

/-- Modelled from the spec, §4.4: the per-file state machine with exactly
one locator invocation per file (step 3), each record classified against
that file's exon list (step 6). `f` is the locator viewed as a function of
the gene name alone, as the spec's collaborator interface has it. -/
def processFilesSpec (f : Str → Option (List Exon)) :
    List (Str × List (List Str)) → RunResult
  | [] => ⟨[], [], 0, none⟩
  | (gene_name, rows) :: rest =>
    match f gene_name with
    | none =>
      let r := processFilesSpec f rest
      ⟨r.out, skipNotice gene_name :: r.skips, r.progress + 1, r.err⟩
    | some exons =>
      if exons = [] then
        let r := processFilesSpec f rest
        ⟨r.out, skipNotice gene_name :: r.skips, r.progress + 1, r.err⟩
      else
        let exon_threshold := calculate_exon_threshold exons.length
        let header : List Str := [gene_name, List.replicate gene_name.length '=']
        match processRowsSpec exons exon_threshold rows.tail 0 with
        | (lines, some e) => ⟨header ++ lines, [], 0, some e⟩
        | (lines, none) =>
          let r := processFilesSpec f rest
          ⟨header ++ lines ++ [[]] ++ r.out, r.skips, r.progress + 1, r.err⟩

/-- Membership of a row among the kept rows, as a per-row predicate: `some`
exactly when the (non-empty) row parses and qualifies under threshold and
classifier, carrying the line that would be written. Stated with `rowStep`
at a fixed fetch, it characterises which rows a scan with a time-invariant
network keeps. -/
def keptLine (f : Str → Option (List Exon)) (gene_name : Str) (exon_threshold : Int)
    (row : List Str) : Option Str :=
  if row = [] then none
  else
    match rowStep f gene_name exon_threshold row with
    | .ok (some line) => some line
    | _ => none

/-! Concrete sample data, used to instantiate the general theorems. -/

/-- The spec's §8 classifier example: `[{10,20},{25,30},{15,18}]`. -/
def sampleExons : List Exon := [⟨10, 20⟩, ⟨25, 30⟩, ⟨15, 18⟩]

/-- A time-invariant network: every call answers with one exon `[1, 100]`. -/
def netConst : Nat → Str → Option (List Exon) := fun _ _ => some [⟨1, 100⟩]

/-- A network whose first call (the step-3 locator call of the single file
processed below) answers `[1, 10]` and whose later calls answer `None`. -/
def netFlaky : Nat → Str → Option (List Exon) :=
  fun k _ => if k = 0 then some [⟨1, 10⟩] else none

/-- A network answering every call with `[1, 10]`, agreeing with `netFlaky`
on call 0. -/
def netSteady : Nat → Str → Option (List Exon) := fun _ _ => some [⟨1, 10⟩]

/-- A data row that parses and, under `netConst`/`netSteady`, is kept. -/
def sampleRow : List Str :=
  ["g1".toList, "ACGTCCC".toList, "chr5:5".toList, "0.91".toList]

/-- A data row whose coordinate field has no `:`. -/
def badSplitRow : List Str :=
  ["g9".toList, "AB".toList, "nocolon".toList, "0.5".toList]

/-- A data row whose position is not numeric. -/
def badIntRow : List Str :=
  ["g9".toList, "AB".toList, "chr5:12x".toList, "0.5".toList]

/-- A non-empty data row with fewer than three fields. -/
def shortRow : List Str := ["g9".toList, "AB".toList]

/-- Six copies of a qualifying data row: a file body with six qualifying
rows, of which only the first five may be kept. -/
def sixGoodRows : List (List Str) := List.replicate 6 sampleRow

/-- A single-file input whose one data row qualifies under the step-3
exon list `[1, 10]`. -/
def oneRowFile : List (Str × List (List Str)) :=
  [("rx3".toList, [["id".toList, "seq".toList, "coord".toList], sampleRow])]

/-- The locator response `[1, 10]` viewed as a function of the gene name
alone (a time-invariant network). -/
def fetchSteady : Str → Option (List Exon) := fun _ => some [⟨1, 10⟩]

/-- A single-file input whose one data row has a coordinate field with no
`:`, so scanning it aborts the run. -/
def badFile : List (Str × List (List Str)) :=
  [("rx3".toList, [["h".toList], badSplitRow])]

/-! Sanity checks: the embedded operations evaluated on concrete inputs. -/

example : calculate_exon_threshold 5 = 3 := by decide

example : calculate_exon_threshold 0 = 0 := by decide

example : calculate_exon_threshold 7 = 3 := by decide

example : calculate_exon_threshold 6 = 3 := by decide

example : ∀ n : Nat, n ≤ 5 → calculate_exon_threshold n = ⌈(n : ℚ) / 2⌉ := by
  intro n h
  interval_cases n <;> rw [eq_comm, Int.ceil_eq_iff] <;> norm_num [calculate_exon_threshold]

example : ∀ n : Nat, 5 < n → calculate_exon_threshold n = ⌊(n : ℚ) / 2⌋ := by
  intro n h
  rw [show ((2 : ℚ)) = ((2 : Nat) : ℚ) by norm_num, Rat.floor_natCast_div_natCast]
  simp only [calculate_exon_threshold, if_neg (not_le.2 h)]
  omega

example : splitColon "chr12:345".toList = ["chr12".toList, "345".toList] := by decide

example : splitColon "nocolon".toList = ["nocolon".toList] := by decide

example : splitColon "a:b:c".toList = ["a".toList, "b".toList, "c".toList] := by decide

example : pyReplace "chr".toList [] "chr4".toList = "4".toList := by decide

example : pyReplace "chr".toList [] "12".toList = "12".toList := by decide

example : pyInt "345".toList = some 345 := by decide

example : pyInt "-7".toList = some (-7) := by decide

example : pyInt "12x".toList = none := by decide

example : pyInt [] = none := by decide

example : truncateLabel "ACGTCCC".toList = "ACGT".toList := by decide

example : truncateLabel "AT".toList = "AT".toList := by decide

example :
    processFiles (fun _ _ => some [⟨1, 100⟩])
      [("geneA".toList, [["id".toList, "name".toList, "coord".toList],
        ["g1".toList, "ACGTCCC".toList, "chr5:42".toList, "0.91".toList]])] 0 =
    ⟨["geneA".toList, "=====".toList,
      "[ACGT]  Efficiency Score: [0.91]  Exon number: 1".toList, []], [], 1, none⟩ := by
  decide

example :
    processFiles (fun _ _ => none) [("geneB".toList, [])] 0 =
    ⟨[], ["No exons found for gene geneB. Skipping file geneB.tsv.".toList], 1, none⟩ := by
  decide

example :
    (processFiles (fun _ _ => some [⟨1, 100⟩])
      [("geneC".toList, [[], ["g1".toList, "AB".toList, "nocolon".toList, "0.5".toList]])]
      0).err = some .splitValueError := by
  decide

/-! General lemmas about the embedded operations. -/

theorem splitColon_of_not_mem {b : Str} (hb : ':' ∉ b) : splitColon b = [b] := by
  induction b with
  | nil => rfl
  | cons c rest ih =>
    have hc : ¬(c = ':') := fun h => hb (h ▸ List.mem_cons_self c rest)
    have hrest : ':' ∉ rest := fun h => hb (List.mem_cons_of_mem c h)
    simp only [splitColon, if_neg hc, ih hrest]

theorem splitColon_append {a : Str} (b : Str) (ha : ':' ∉ a) :
    splitColon (a ++ ':' :: b) = a :: splitColon b := by
  induction a with
  | nil => simp [splitColon]
  | cons c rest ih =>
    have hc : ¬(c = ':') := fun h => ha (h ▸ List.mem_cons_self c rest)
    have hrest : ':' ∉ rest := fun h => ha (List.mem_cons_of_mem c h)
    simp only [List.cons_append, splitColon, if_neg hc, List.append_eq, ih hrest]

theorem splitColon_two_of_single_colon {a b : Str} (ha : ':' ∉ a) (hb : ':' ∉ b) :
    splitColon (a ++ ':' :: b) = [a, b] := by
  rw [splitColon_append b ha, splitColon_of_not_mem hb]

/-! Theorems for the claims. -/

/-- C1: for every non-negative integer `exon_count`, the Threshold
Calculator returns `⌈exon_count / 2⌉` when `exon_count ≤ 5` and
`⌊exon_count / 2⌋` when `exon_count > 5`; in particular
`threshold(5) = 3`, `threshold(6) = 3`, `threshold(7) = 3`,
`threshold(1) = 1` and `threshold(0) = 0`. -/
theorem c1_threshold_ceiling_floor (n : Nat) :
    (n ≤ 5 → calculate_exon_threshold n = ⌈(n : ℚ) / 2⌉) ∧
    (5 < n → calculate_exon_threshold n = ⌊(n : ℚ) / 2⌋) ∧
    calculate_exon_threshold 5 = 3 ∧ calculate_exon_threshold 6 = 3 ∧
    calculate_exon_threshold 7 = 3 ∧ calculate_exon_threshold 1 = 1 ∧
    calculate_exon_threshold 0 = 0 := by
  refine ⟨fun h => ?_, fun h => ?_, by decide, by decide, by decide, by decide, by decide⟩
  · interval_cases n <;>
      rw [eq_comm, Int.ceil_eq_iff] <;> norm_num [calculate_exon_threshold]
  · rw [show ((2 : ℚ)) = ((2 : Nat) : ℚ) by norm_num, Rat.floor_natCast_div_natCast]
    simp only [calculate_exon_threshold, if_neg (not_le.2 h)]
    omega

/-- Witness for C1 at `n = 4` (ceiling branch) and `n = 8` (floor branch). -/
theorem c1_threshold_ceiling_floor_witness :
    calculate_exon_threshold 4 = ⌈(4 : ℚ) / 2⌉ ∧
    calculate_exon_threshold 8 = ⌊(8 : ℚ) / 2⌋ :=
  ⟨(c1_threshold_ceiling_floor 4).1 (by decide),
   (c1_threshold_ceiling_floor 8).2.1 (by decide)⟩

/-- C7: the display label is the second field unchanged when its length is
at most 3, and the second field with exactly its last 3 characters removed
when longer (a 7-character value keeps its first 4 characters). -/
theorem c7_label_truncation (s : Str) :
    (s.length ≤ 3 → truncateLabel s = s) ∧
    (3 < s.length →
      truncateLabel s ++ s.drop (s.length - 3) = s ∧
      (s.drop (s.length - 3)).length = 3 ∧
      (truncateLabel s).length = s.length - 3) ∧
    (s.length = 7 → truncateLabel s = s.take 4) := by
  refine ⟨fun h => ?_, fun h => ⟨?_, ?_, ?_⟩, fun h => ?_⟩
  · simp [truncateLabel, Nat.not_lt.2 h]
  · simp [truncateLabel, h, List.take_append_drop]
  · simp only [List.length_drop]; omega
  · simp only [truncateLabel, if_pos h, List.length_take]; omega
  · simp [truncateLabel, h]

/-- Witness for C7: `"ACGTCCC"` (length 7) keeps `"ACGT"`, `"AT"` is kept
verbatim. -/
theorem c7_label_truncation_witness :
    truncateLabel "ACGTCCC".toList = "ACGTCCC".toList.take 4 ∧
    truncateLabel "AT".toList = "AT".toList :=
  ⟨(c7_label_truncation "ACGTCCC".toList).2.2 (by decide),
   (c7_label_truncation "AT".toList).1 (by decide)⟩

theorem find_exon_loop_none_iff (exons : List Exon) (c : Int) (i : Nat) :
    find_exon_loop exons c i = none ↔ ∀ e ∈ exons, exonContains e c = false := by
  induction exons generalizing i with
  | nil => simp [find_exon_loop]
  | cons e rest ih =>
    by_cases h : exonContains e c
    · simp [find_exon_loop, h]
    · simp only [find_exon_loop, if_neg h, ih (i + 1), List.mem_cons]
      constructor
      · rintro hall e2 (rfl | he2)
        · exact Bool.eq_false_iff.2 h
        · exact hall e2 he2
      · intro hall e2 he2
        exact hall e2 (Or.inr he2)

theorem find_exon_loop_some_iff (exons : List Exon) (c : Int) (i k : Nat) :
    find_exon_loop exons c i = some k ↔
      i ≤ k ∧ (∃ e, exons.get? (k - i) = some e ∧ exonContains e c = true) ∧
        ∀ j, j < k - i → ∀ e, exons.get? j = some e → exonContains e c = false := by
  induction exons generalizing i with
  | nil => simp [find_exon_loop]
  | cons e rest ih =>
    cases hb : exonContains e c with
    | true =>
      rw [find_exon_loop, if_pos hb]
      simp only [Option.some.injEq]
      constructor
      · rintro rfl
        exact ⟨le_refl i, ⟨e, by simp, hb⟩, fun j hj => absurd hj (by omega)⟩
      · rintro ⟨hik, -, hfirst⟩
        by_contra hne
        have h0 := hfirst 0 (by omega) e (by simp)
        rw [hb] at h0
        exact Bool.noConfusion h0
    | false =>
      rw [find_exon_loop, if_neg (by simp [hb]), ih (i + 1)]
      constructor
      · rintro ⟨hik, ⟨e2, hget, hcont⟩, hfirst⟩
        refine ⟨by omega, ⟨e2, ?_, hcont⟩, ?_⟩
        · rw [show k - i = (k - (i + 1)) + 1 by omega]
          simpa using hget
        · intro j hj e3 hget3
          cases j with
          | zero =>
            simp only [List.get?_cons_zero, Option.some.injEq] at hget3
            subst hget3
            exact hb
          | succ j =>
            exact hfirst j (by omega) e3 (by simpa using hget3)
      · rintro ⟨hik, ⟨e2, hget, hcont⟩, hfirst⟩
        have hne : i ≠ k := by
          rintro rfl
          rw [Nat.sub_self] at hget
          simp only [List.get?_cons_zero, Option.some.injEq] at hget
          subst hget
          rw [hcont] at hb
          exact Bool.noConfusion hb
        refine ⟨by omega, ⟨e2, ?_, hcont⟩, ?_⟩
        · rw [show k - i = (k - (i + 1)) + 1 by omega] at hget
          simpa using hget
        · intro j hj e3 hget3
          exact hfirst (j + 1) (by omega) e3 (by simpa using hget3)

/-- C2: the classifier scan returns the 1-based position of the first
interval (in iteration order) satisfying `start <= coordinate <= end`, even
when intervals overlap, and returns `none` when no interval contains the
coordinate or the list is empty. -/
theorem c2_first_match (exons : List Exon) (c : Int) :
    (find_exon_loop ([] : List Exon) c 1 = none) ∧
    (find_exon_loop exons c 1 = none ↔ ∀ e ∈ exons, exonContains e c = false) ∧
    (∀ k, find_exon_loop exons c 1 = some k ↔
      1 ≤ k ∧ (∃ e, exons.get? (k - 1) = some e ∧ exonContains e c = true) ∧
        ∀ j, j < k - 1 → ∀ e, exons.get? j = some e → exonContains e c = false) :=
  ⟨rfl, find_exon_loop_none_iff exons c 1,
   fun k => find_exon_loop_some_iff exons c 1 k⟩

/-- Witness for C2 on the spec's §8 example `[{10,20},{25,30},{15,18}]`:
coordinate 16 gives ordinal 1 (first match wins despite the overlapping
third interval), 26 gives ordinal 2, 5 gives `none`. -/
theorem c2_first_match_witness :
    find_exon_loop sampleExons 16 1 = some 1 ∧
    find_exon_loop sampleExons 26 1 = some 2 ∧
    find_exon_loop sampleExons 5 1 = none :=
  ⟨((c2_first_match sampleExons 16).2.2 1).mpr
      ⟨by decide, ⟨⟨10, 20⟩, by decide, by decide⟩,
       fun j hj => absurd hj (Nat.not_lt_zero j)⟩,
   ((c2_first_match sampleExons 26).2.2 2).mpr
      ⟨by decide, ⟨⟨25, 30⟩, by decide, by decide⟩, by
        intro j hj e hget
        interval_cases j
        simp only [sampleExons, List.get?] at hget
        cases hget
        decide⟩,
   (c2_first_match sampleExons 5).2.1.mpr (by decide)⟩

/-- C8: classification ignores the chromosome entirely: `find_exon` returns
the same result for any two chromosome values, and a full row step behaves
identically on two rows that differ only in the chromosome written before
the `:` of the coordinate field. -/
theorem c8_chromosome_ignored :
    (∀ (fetch : Str → Option (List Exon)) (c1 c2 : Str) (position : Int) (gene : Str),
      find_exon fetch c1 position gene = find_exon fetch c2 position gene) ∧
    (∀ (fetch : Str → Option (List Exon)) (gene : Str) (thr : Int)
      (idcell lab ch1 ch2 pos score : Str),
      ':' ∉ ch1 → ':' ∉ ch2 → ':' ∉ pos →
      rowStep fetch gene thr [idcell, lab, ch1 ++ ':' :: pos, score] =
        rowStep fetch gene thr [idcell, lab, ch2 ++ ':' :: pos, score]) := by
  constructor
  · intro fetch c1 c2 position gene
    rfl
  · intro fetch gene thr idcell lab ch1 ch2 pos score h1 h2 hp
    have hfe : find_exon fetch (pyReplace "chr".toList [] ch1) =
        find_exon fetch (pyReplace "chr".toList [] ch2) := rfl
    simp only [rowStep, rowStepWith, List.get?, splitColon_two_of_single_colon h1 hp,
      splitColon_two_of_single_colon h2 hp, hfe, List.getLast?_cons_cons,
      List.getLast?_singleton]

theorem processFiles_skip (net : Nat → Str → Option (List Exon)) (gene_name : Str)
    (rows : List (List Str)) (rest : List (Str × List (List Str))) (k : Nat)
    (h : net k gene_name = none ∨ net k gene_name = some []) :
    processFiles net ((gene_name, rows) :: rest) k =
      ⟨(processFiles net rest (k + 1)).out,
       skipNotice gene_name :: (processFiles net rest (k + 1)).skips,
       (processFiles net rest (k + 1)).progress + 1,
       (processFiles net rest (k + 1)).err⟩ := by
  rcases h with h | h <;> simp [processFiles, h]

/-- C5: a gene file whose locator call returns `not_found` (`None`) or an
empty exon sequence contributes no header and no output block, adds one
skip notice, advances progress by one, and leaves the rest of the run —
including whether it completes without error — exactly as if the remaining
files were processed alone. -/
theorem c5_skip_no_block (net : Nat → Str → Option (List Exon)) (gene_name : Str)
    (rows : List (List Str)) (rest : List (Str × List (List Str))) (k : Nat)
    (h : net k gene_name = none ∨ net k gene_name = some []) :
    processFiles net ((gene_name, rows) :: rest) k =
      ⟨(processFiles net rest (k + 1)).out,
       skipNotice gene_name :: (processFiles net rest (k + 1)).skips,
       (processFiles net rest (k + 1)).progress + 1,
       (processFiles net rest (k + 1)).err⟩ :=
  processFiles_skip net gene_name rows rest k h

/-- Witness for C5: a run over one file whose locator call answers `None`
completes with no output block, one skip notice, and progress 1. -/
theorem c5_skip_no_block_witness :
    processFiles (fun _ _ => none) [("geneB".toList, [])] 0 =
      ⟨[], [skipNotice "geneB".toList], 1, none⟩ := by
  rw [c5_skip_no_block (fun _ _ => none) "geneB".toList [] [] 0 (Or.inl rfl)]
  decide

theorem processRows_of_five_kept (net : Nat → Str → Option (List Exon))
    (gene_name : Str) (thr : Int) (rows : List (List Str)) (count k : Nat)
    (h : 5 ≤ count) : processRows net gene_name thr rows count k = ([], k, none) := by
  cases rows with
  | nil => rfl
  | cons row rest => simp [processRows, if_pos h]

/-- Witness for C8: chromosome `"chr5"` versus `"chrX"` at position 5. -/
theorem c8_chromosome_ignored_witness :
    rowStep (netSteady 0) "rx3".toList 1
        ["g1".toList, "ACGTCCC".toList, "chr5".toList ++ ':' :: "5".toList, "0.91".toList] =
      rowStep (netSteady 0) "rx3".toList 1
        ["g1".toList, "ACGTCCC".toList, "chrX".toList ++ ':' :: "5".toList, "0.91".toList] :=
  c8_chromosome_ignored.2 (netSteady 0) "rx3".toList 1 "g1".toList "ACGTCCC".toList
    "chr5".toList "chrX".toList "5".toList "0.91".toList
    (by decide) (by decide) (by decide)

/-- C9: once 5 rows have been kept, the remaining rows of the file are never
examined: if scanning `xs` ends without error having kept 5 rows in total,
then scanning `xs ++ ys` gives the identical result for every suffix `ys` —
in particular a malformed row after the fifth kept row cannot abort the run.
(The first conjunct is the break itself: with the kept count at 5 or more,
any remaining row list yields no lines and no error.) -/
theorem c9_no_parse_after_five (net : Nat → Str → Option (List Exon))
    (gene_name : Str) (thr : Int) :
    (∀ rows count k, 5 ≤ count →
      processRows net gene_name thr rows count k = ([], k, none)) ∧
    (∀ xs ys count k l k2,
      processRows net gene_name thr xs count k = (l, k2, none) →
      5 ≤ count + l.length →
      processRows net gene_name thr (xs ++ ys) count k = (l, k2, none)) := by
  refine ⟨fun rows count k h => processRows_of_five_kept net gene_name thr rows count k h,
    fun xs => ?_⟩
  induction xs with
  | nil =>
    intro ys count k l k2 h h5
    simp only [processRows, Prod.mk.injEq] at h
    obtain ⟨rfl, rfl, -⟩ := h
    simpa using processRows_of_five_kept net gene_name thr ys count k (by simpa using h5)
  | cons row rest ih =>
    intro ys count k l k2 h h5
    by_cases hc : 5 ≤ count
    · rw [processRows_of_five_kept net gene_name thr (row :: rest) count k hc] at h
      simp only [Prod.mk.injEq] at h
      obtain ⟨rfl, rfl, -⟩ := h
      exact processRows_of_five_kept net gene_name thr ((row :: rest) ++ ys) count k hc
    · by_cases hrow : row = []
      · subst hrow
        rw [processRows, if_neg hc, if_pos rfl] at h
        rw [List.cons_append, processRows, if_neg hc, if_pos rfl]
        exact ih ys count k l k2 h h5
      · rw [processRows, if_neg hc, if_neg hrow] at h
        rw [List.cons_append, processRows, if_neg hc, if_neg hrow]
        cases hs : rowStep (net k) gene_name thr row with
        | error e =>
          rw [hs] at h
          have h2 : (([], k, some e) : List Str × Nat × Option RowError) = (l, k2, none) := h
          simp at h2
        | ok o =>
          cases o with
          | none =>
            rw [hs] at h
            exact ih ys count (k + 1) l k2 h h5
          | some line =>
            rw [hs] at h
            rcases hrec : processRows net gene_name thr rest (count + 1) (k + 1) with
              ⟨ls, k3, err⟩
            have h2 : (match processRows net gene_name thr rest (count + 1) (k + 1) with
                | (ls, k4, err) => (line :: ls, k4, err)) = (l, k2, none) := h
            rw [hrec] at h2
            have h3 : (line :: ls, k3, err) = (l, k2, none) := h2
            simp only [Prod.mk.injEq] at h3
            obtain ⟨rfl, rfl, rfl⟩ := h3
            have h5a : 5 ≤ (count + 1) + ls.length := by
              simp only [List.length_cons] at h5
              omega
            show (match processRows net gene_name thr (rest ++ ys) (count + 1) (k + 1) with
                | (ls, k4, err) => (line :: ls, k4, err)) = (line :: ls, k3, none)
            rw [ih ys (count + 1) (k + 1) ls k3 hrec h5a]

/-- Witness for C9: five qualifying rows followed by a sixth qualifying row
and then a malformed row; the scan returns the five lines without error,
never reaching the malformed row. -/
theorem c9_no_parse_after_five_witness :
    processRows netSteady "rx3".toList 1 (sixGoodRows ++ [badSplitRow]) 0 0 =
      (List.replicate 5 (formatLine "ACGT".toList "0.91".toList 1), 5, none) :=
  (c9_no_parse_after_five netSteady "rx3".toList 1).2 sixGoodRows [badSplitRow] 0 0
    (List.replicate 5 (formatLine "ACGT".toList "0.91".toList 1)) 5
    (by decide) (by decide)

/-- C10: a non-empty data row with fewer than 3 tab-separated fields makes
the scan fail at the third-field access with an `IndexError` that aborts the
loop; an entirely empty row is skipped with no effect. -/
theorem c10_short_row_aborts :
    (∀ (net : Nat → Str → Option (List Exon)) (gene_name : Str) (thr : Int)
      (row : List Str) rest count k, count < 5 → row ≠ [] → row.length < 3 →
      processRows net gene_name thr (row :: rest) count k = ([], k, some .indexError)) ∧
    (∀ (net : Nat → Str → Option (List Exon)) (gene_name : Str) (thr : Int)
      rest count k, count < 5 →
      processRows net gene_name thr ([] :: rest) count k =
        processRows net gene_name thr rest count k) := by
  constructor
  · intro net gene_name thr row rest count k hc hne hlen
    have hget : row.get? 2 = none := List.get?_eq_none.mpr (by omega)
    rw [processRows, if_neg (by omega), if_neg hne, rowStep, rowStepWith, hget]
  · intro net gene_name thr rest count k hc
    rw [processRows, if_neg (by omega), if_pos rfl]

/-- Witness for C10: the two-field row `["g9", "AB"]` aborts with
`IndexError`; the empty row is skipped. -/
theorem c10_short_row_aborts_witness :
    processRows netSteady "rx3".toList 1 [shortRow] 0 0 =
        ([], 0, some .indexError) ∧
    processRows netSteady "rx3".toList 1 [[], sampleRow] 0 0 =
        processRows netSteady "rx3".toList 1 [sampleRow] 0 0 :=
  ⟨c10_short_row_aborts.1 netSteady "rx3".toList 1 shortRow [] 0 0
      (by decide) (by decide) (by decide),
   c10_short_row_aborts.2 netSteady "rx3".toList 1 [sampleRow] 0 0 (by decide)⟩

theorem processRows_out_length_le (net : Nat → Str → Option (List Exon))
    (gene_name : Str) (thr : Int) :
    ∀ rows count k, (processRows net gene_name thr rows count k).1.length ≤ 5 - count := by
  intro rows
  induction rows with
  | nil => intro count k; simp [processRows]
  | cons row rest ih =>
    intro count k
    by_cases hc : 5 ≤ count
    · rw [processRows_of_five_kept net gene_name thr (row :: rest) count k hc]
      simp
    · by_cases hrow : row = []
      · subst hrow
        rw [processRows, if_neg hc, if_pos rfl]
        exact ih count k
      · rw [processRows, if_neg hc, if_neg hrow]
        cases hs : rowStep (net k) gene_name thr row with
        | error e => simp
        | ok o =>
          cases o with
          | none => exact ih count (k + 1)
          | some line =>
            rcases hrec : processRows net gene_name thr rest (count + 1) (k + 1) with
              ⟨ls, k3, err⟩
            have hlen : ls.length ≤ 5 - (count + 1) := by
              have h0 := ih (count + 1) (k + 1)
              rw [hrec] at h0
              exact h0
            show ls.length + 1 ≤ 5 - count
            omega

theorem processRows_const_out_eq (f : Str → Option (List Exon)) (gene_name : Str)
    (thr : Int) :
    ∀ rows count k, (processRows (fun _ => f) gene_name thr rows count k).2.2 = none →
      (processRows (fun _ => f) gene_name thr rows count k).1 =
        ((rows.filterMap (keptLine f gene_name thr)).take (5 - count)) := by
  intro rows
  induction rows with
  | nil => intro count k _; simp [processRows]
  | cons row rest ih =>
    intro count k herr
    by_cases hc : 5 ≤ count
    · rw [processRows_of_five_kept (fun _ => f) gene_name thr (row :: rest) count k hc,
        show 5 - count = 0 by omega]
      simp
    · by_cases hrow : row = []
      · subst hrow
        rw [processRows, if_neg hc, if_pos rfl] at herr ⊢
        rw [List.filterMap_cons_none (by simp [keptLine])]
        exact ih count k herr
      · rw [processRows, if_neg hc, if_neg hrow] at herr ⊢
        have hkept : rowStep f gene_name thr row = rowStep ((fun _ => f) k) gene_name thr row :=
          rfl
        cases hs : rowStep ((fun _ => f) k) gene_name thr row with
        | error e =>
          rw [hs] at herr
          have h2 : (some e : Option RowError) = none := herr
          exact Option.noConfusion h2
        | ok o =>
          cases o with
          | none =>
            rw [hs] at herr
            have hs2 : rowStep f gene_name thr row = Except.ok none := hs
            rw [List.filterMap_cons_none (by simp only [keptLine, if_neg hrow, hs2])]
            exact ih count (k + 1) herr
          | some line =>
            rw [hs] at herr
            have hs2 : rowStep f gene_name thr row = Except.ok (some line) := hs
            have hkl : keptLine f gene_name thr row = some line := by
              simp only [keptLine, if_neg hrow, hs2]
            have herr2 : (processRows (fun _ => f) gene_name thr rest (count + 1) (k + 1)).2.2 =
                none := herr
            rw [List.filterMap_cons_some hkl,
              show 5 - count = (5 - (count + 1)) + 1 by omega, List.take_succ_cons]
            show line :: (processRows (fun _ => f) gene_name thr rest (count + 1) (k + 1)).1 = _
            rw [ih (count + 1) (k + 1) herr2]

/-- C4: per input file the scan keeps at most 5 rows, the kept rows appear
in original row order, and a file with 6 or more qualifying rows yields
exactly the first 5 by row order: with a time-invariant network the output
lines are precisely the first five elements of the in-order selection of
qualifying rows (`filterMap` preserves row order, `take 5` cuts after
five). -/
theorem c4_at_most_five_in_order :
    (∀ (net : Nat → Str → Option (List Exon)) (gene_name : Str) (thr : Int)
      rows count k, (processRows net gene_name thr rows count k).1.length ≤ 5 - count) ∧
    (∀ (f : Str → Option (List Exon)) (gene_name : Str) (thr : Int) rows k,
      (processRows (fun _ => f) gene_name thr rows 0 k).2.2 = none →
      (processRows (fun _ => f) gene_name thr rows 0 k).1 =
        ((rows.filterMap (keptLine f gene_name thr)).take 5)) :=
  ⟨fun net gene_name thr rows count k =>
      processRows_out_length_le net gene_name thr rows count k,
   fun f gene_name thr rows k h => processRows_const_out_eq f gene_name thr rows 0 k h⟩

/-- Witness for C4: six qualifying rows yield exactly the first five kept
lines, in order. -/
theorem c4_at_most_five_in_order_witness :
    (processRows (fun _ => fetchSteady) "rx3".toList 1 sixGoodRows 0 0).1 =
      ((sixGoodRows.filterMap (keptLine fetchSteady "rx3".toList 1)).take 5) :=
  c4_at_most_five_in_order.2 fetchSteady "rx3".toList 1 sixGoodRows 0 (by decide)

/-- C6: a scanned data row whose coordinate field has no `:` aborts the scan
with a `ValueError` from tuple unpacking, and one whose position is not
numeric aborts it with a `ValueError` from `int()`; an aborted run reports
that single error, processes no further files (appending more input files
changes nothing), and keeps the output already written. -/
theorem c6_malformed_coordinate_aborts :
    (∀ (net : Nat → Str → Option (List Exon)) (gene_name : Str) (thr : Int)
      (row : List Str) rest count k gc,
      count < 5 → row ≠ [] → row.get? 2 = some gc → ':' ∉ gc →
      processRows net gene_name thr (row :: rest) count k =
        ([], k, some .splitValueError)) ∧
    (∀ (net : Nat → Str → Option (List Exon)) (gene_name : Str) (thr : Int)
      (row : List Str) rest count k gc a b,
      count < 5 → row ≠ [] → row.get? 2 = some gc → splitColon gc = [a, b] →
      pyInt b = none →
      processRows net gene_name thr (row :: rest) count k =
        ([], k, some .intValueError)) ∧
    (∀ (net : Nat → Str → Option (List Exon)) files extra k,
      (processFiles net files k).err.isSome →
      processFiles net (files ++ extra) k = processFiles net files k) := by
  refine ⟨?_, ?_, ?_⟩
  · intro net gene_name thr row rest count k gc hc hne hget hcol
    rw [processRows, if_neg (by omega), if_neg hne, rowStep, rowStepWith, hget]
    simp only [splitColon_of_not_mem hcol]
  · intro net gene_name thr row rest count k gc a b hc hne hget hsplit hint
    rw [processRows, if_neg (by omega), if_neg hne, rowStep, rowStepWith, hget]
    simp only [hsplit, hint]
  · intro net files
    induction files with
    | nil =>
      intro extra k h
      simp [processFiles] at h
    | cons fp rest ih =>
      rcases fp with ⟨g, rows⟩
      intro extra k h
      cases hg : net k g with
      | none =>
        rw [processFiles_skip net g rows rest k (Or.inl hg)] at h
        have h2 : (processFiles net rest (k + 1)).err.isSome := h
        rw [List.cons_append, processFiles_skip net g rows (rest ++ extra) k (Or.inl hg),
          processFiles_skip net g rows rest k (Or.inl hg), ih extra (k + 1) h2]
      | some exons =>
        by_cases hex : exons = []
        · subst hex
          rw [processFiles_skip net g rows rest k (Or.inr hg)] at h
          have h2 : (processFiles net rest (k + 1)).err.isSome := h
          rw [List.cons_append, processFiles_skip net g rows (rest ++ extra) k (Or.inr hg),
            processFiles_skip net g rows rest k (Or.inr hg), ih extra (k + 1) h2]
        · simp only [processFiles, hg, if_neg hex] at h
          rw [List.cons_append]
          simp only [processFiles, hg, if_neg hex]
          rcases hrow : processRows net g (calculate_exon_threshold exons.length)
              rows.tail 0 (k + 1) with ⟨lines, k2, errop⟩
          cases errop with
          | some e =>
            simp only [hrow] at h ⊢
          | none =>
            simp only [hrow] at h ⊢
            rw [ih extra k2 h]

/-- Witness for C6: a row with no `:` aborts with the unpacking error, a row
with a non-numeric position aborts with the `int()` error, and a run that
aborts on its first file is unchanged by appending further files. -/
theorem c6_malformed_coordinate_aborts_witness :
    processRows netSteady "rx3".toList 1 [badSplitRow] 0 0 =
        ([], 0, some .splitValueError) ∧
    processRows netSteady "rx3".toList 1 [badIntRow] 0 0 =
        ([], 0, some .intValueError) ∧
    processFiles netSteady (badFile ++ oneRowFile) 0 = processFiles netSteady badFile 0 :=
  ⟨c6_malformed_coordinate_aborts.1 netSteady "rx3".toList 1 badSplitRow [] 0 0
      "nocolon".toList (by decide) (by decide) (by decide) (by decide),
   c6_malformed_coordinate_aborts.2.1 netSteady "rx3".toList 1 badIntRow [] 0 0
      "chr5:12x".toList "chr5".toList "12x".toList (by decide) (by decide) (by decide)
      (by decide) (by decide),
   c6_malformed_coordinate_aborts.2.2 netSteady badFile oneRowFile 0 (by decide)⟩

/-- C3 counterexample: two networks that give the same response to the
single step-3 locator call of the run (call 0) but differ on the per-record
call produce different outputs on the same input, so the classification of
a record does not depend only on the step-3 exon list and the record's
coordinate, and record scanning does perform additional fetches. -/
theorem c3_per_record_fetch_counterexample :
    (∀ s, netSteady 0 s = netFlaky 0 s) ∧
    processFiles netSteady oneRowFile 0 ≠ processFiles netFlaky oneRowFile 0 :=
  ⟨fun s => rfl, by decide⟩

theorem rowStep_eq_rowStepSpec (f : Str → Option (List Exon)) (gene_name : Str)
    (exons : List Exon) (thr : Int) (row : List Str)
    (hf : f gene_name = some exons) (hne : exons ≠ []) :
    rowStep f gene_name thr row = rowStepSpec exons thr row := by
  have hcl : (fun chromosome position => find_exon f chromosome position gene_name) =
      (fun (ch : Str) (position : Int) => classify exons position) := by
    funext ch position
    simp only [find_exon, hf, if_neg hne, classify]
  rw [rowStep, rowStepSpec, hcl]

theorem processRows_const_eq_spec (f : Str → Option (List Exon)) (gene_name : Str)
    (exons : List Exon) (thr : Int)
    (hf : f gene_name = some exons) (hne : exons ≠ []) :
    ∀ rows count k,
      ((processRows (fun _ => f) gene_name thr rows count k).1,
       (processRows (fun _ => f) gene_name thr rows count k).2.2) =
        processRowsSpec exons thr rows count := by
  intro rows
  induction rows with
  | nil => intro count k; rfl
  | cons row rest ih =>
    intro count k
    by_cases hc : 5 ≤ count
    · rw [processRows_of_five_kept (fun _ => f) gene_name thr (row :: rest) count k hc,
        processRowsSpec, if_pos hc]
    · by_cases hrow : row = []
      · subst hrow
        rw [processRows, if_neg hc, if_pos rfl, processRowsSpec, if_neg hc, if_pos rfl]
        exact ih count k
      · rw [processRows, if_neg hc, if_neg hrow, processRowsSpec, if_neg hc, if_neg hrow]
        have hstep : rowStep ((fun _ => f) k) gene_name thr row = rowStepSpec exons thr row :=
          rowStep_eq_rowStepSpec f gene_name exons thr row hf hne
        rw [hstep]
        cases hs : rowStepSpec exons thr row with
        | error e => rfl
        | ok o =>
          cases o with
          | none => exact ih count (k + 1)
          | some line =>
            have hpair := ih (count + 1) (k + 1)
            have h1 : (processRows (fun _ => f) gene_name thr rest (count + 1) (k + 1)).1 =
                (processRowsSpec exons thr rest (count + 1)).1 := congrArg Prod.fst hpair
            have h2 : (processRows (fun _ => f) gene_name thr rest (count + 1) (k + 1)).2.2 =
                (processRowsSpec exons thr rest (count + 1)).2 := congrArg Prod.snd hpair
            show (line :: (processRows (fun _ => f) gene_name thr rest (count + 1) (k + 1)).1,
                (processRows (fun _ => f) gene_name thr rest (count + 1) (k + 1)).2.2) =
              (line :: (processRowsSpec exons thr rest (count + 1)).1,
                (processRowsSpec exons thr rest (count + 1)).2)
            rw [h1, h2]

/-- C3 (amended): the classification scan over a given exon list is pure,
but each record's classification performs its own locator fetch inside
`find_exon` instead of reusing the step-3 list, so its result depends on
the response to that per-record fetch. When the network's responses are
time-invariant across the run, the processor coincides exactly with the
spec's model in which every record is classified against the gene-scoped
exon list obtained by the single step-3 locator invocation. -/
theorem c3_classifier_refetch_amended (f : Str → Option (List Exon)) :
    ∀ (files : List (Str × List (List Str))) (k : Nat),
      processFiles (fun _ => f) files k = processFilesSpec f files := by
  intro files
  induction files with
  | nil => intro k; rfl
  | cons fp rest ih =>
    rcases fp with ⟨g, rows⟩
    intro k
    cases hg : f g with
    | none =>
      rw [processFiles_skip (fun _ => f) g rows rest k (Or.inl hg), processFilesSpec]
      simp only [hg]
      rw [ih (k + 1)]
    | some exons =>
      by_cases hex : exons = []
      · subst hex
        rw [processFiles_skip (fun _ => f) g rows rest k (Or.inr hg), processFilesSpec]
        simp only [hg, if_pos rfl]
        rw [ih (k + 1)]
        simp
      · have hpair := processRows_const_eq_spec f g exons
          (calculate_exon_threshold exons.length) hg hex rows.tail 0 (k + 1)
        rcases hrec : processRows (fun _ => f) g (calculate_exon_threshold exons.length)
            rows.tail 0 (k + 1) with ⟨lines, k2, e⟩
        rcases hspec : processRowsSpec exons (calculate_exon_threshold exons.length)
            rows.tail 0 with ⟨lines2, e2⟩
        rw [hrec, hspec] at hpair
        have hpair2 : (lines, e) = (lines2, e2) := hpair
        simp only [Prod.mk.injEq] at hpair2
        obtain ⟨rfl, rfl⟩ := hpair2
        rw [processFiles, processFilesSpec]
        simp only [hg, if_neg hex]
        rw [hrec, hspec]
        cases e with
        | some err => rfl
        | none =>
          show ({ out := [g, List.replicate g.length '='] ++ lines ++ [[]] ++
                    (processFiles (fun _ => f) rest k2).out,
                  skips := (processFiles (fun _ => f) rest k2).skips,
                  progress := (processFiles (fun _ => f) rest k2).progress + 1,
                  err := (processFiles (fun _ => f) rest k2).err } : RunResult) =
              { out := [g, List.replicate g.length '='] ++ lines ++ [[]] ++
                    (processFilesSpec f rest).out,
                  skips := (processFilesSpec f rest).skips,
                  progress := (processFilesSpec f rest).progress + 1,
                  err := (processFilesSpec f rest).err }
          rw [ih k2]
